import Mathlib

/-!
# Verification of the `hono-honeypot` rule engine (`src/index.ts`)

Shallow embedding of the path-classifier middleware: the built-in attack
signature list `ATTACK_PATTERNS`, the option record `HoneypotOptions`,
the composition of built-ins, additions and exclusions performed by
`honeypot`, the per-request path normalization (`path.replace(/\/+/g, '/')`),
the JavaScript `RegExp.test` matching semantics for the (star-free) pattern
language actually used by the signatures, the allow/block decision, and the
client-IP derivation used for the log record.

Regular expressions are embedded as an abstract syntax tree (`Re`) together
with a renderer `Re.render` that prints the AST back to the exact JavaScript
pattern source text; a `JSRegExp` packages an AST with its anchors and the
`i` flag, and `JSRegExp.source` reproduces the `.source` property that the
exclusion filter of `honeypot` compares by string equality.
-/

namespace Honeypot

/-- AST of the fragment of JavaScript regular expressions used by the
signature set: literal characters (`lit` printed bare, `esc` printed with a
backslash), the `\d` digit class, concatenation, alternation `a|b`,
parenthesised groups `(r)`, the optional quantifier `r?` and the exact
repetition `r{4}`.  No Kleene star occurs in any signature, so every AST
matches only strings of bounded length. -/
inductive Re where
  | eps : Re
  | lit : Char → Re
  | esc : Char → Re
  | digit : Re
  | seq : Re → Re → Re
  | alt : Re → Re → Re
  | group : Re → Re
  | opt : Re → Re
  | rep4 : Re → Re
deriving DecidableEq, Repr

/-- Render an AST back to JavaScript regex source text (without anchors). -/
def Re.render : Re → String
  | .eps => ""
  | .lit c => String.singleton c
  | .esc c => "\\" ++ String.singleton c
  | .digit => "\\d"
  | .seq a b => a.render ++ b.render
  | .alt a b => a.render ++ "|" ++ b.render
  | .group r => "(" ++ r.render ++ ")"
  | .opt r => r.render ++ "?"
  | .rep4 r => r.render ++ "{4}"

/-- A JavaScript `RegExp` value: optional `^` anchor, body, optional `$`
anchor, and whether the `i` (ignore-case) flag is set.  (No other flag is
used anywhere in the repository.) -/
structure JSRegExp where
  anchoredStart : Bool
  body : Re
  anchoredEnd : Bool
  ignoreCase : Bool
deriving DecidableEq, Repr

/-- The `.source` property: the pattern text between the slashes of the
literal, anchors included, flags not included. -/
def JSRegExp.source (p : JSRegExp) : String :=
  (if p.anchoredStart then "^" else "") ++ p.body.render ++
    (if p.anchoredEnd then "$" else "")

/-- Character comparison as performed by the JS regex engine: literal
comparison, folded through `Char.toLower` when the `i` flag is set. -/
def charMatch (ci : Bool) (p a : Char) : Bool :=
  if ci then p.toLower == a.toLower else p == a

/-- All suffixes of the input left after this AST consumes a prefix of it.
The AST is star-free, so plain structural recursion suffices. -/
def residuals (ci : Bool) : Re → List Char → List (List Char)
  | .eps, s => [s]
  | .lit _, [] => []
  | .lit c, a :: rest => if charMatch ci c a then [rest] else []
  | .esc _, [] => []
  | .esc c, a :: rest => if charMatch ci c a then [rest] else []
  | .digit, [] => []
  | .digit, a :: rest => if a.isDigit then [rest] else []
  | .seq r1 r2, s => (residuals ci r1 s).flatMap (residuals ci r2)
  | .alt r1 r2, s => residuals ci r1 s ++ residuals ci r2 s
  | .group r, s => residuals ci r s
  | .opt r, s => s :: residuals ci r s
  | .rep4 r, s =>
      (((residuals ci r s).flatMap (residuals ci r)).flatMap
        (residuals ci r)).flatMap (residuals ci r)

/-- Does the body match starting exactly at the head of `s`, respecting a
trailing `$` anchor (`ae`)? -/
def matchHere (ci ae : Bool) (r : Re) (s : List Char) : Bool :=
  (residuals ci r s).any (fun rem => if ae then rem.isEmpty else true)

/-- All suffixes of a character list, longest first (the start positions a
JS regex engine scans when the pattern has no `^` anchor). -/
def tails : List Char → List (List Char)
  | [] => [[]]
  | a :: rest => (a :: rest) :: tails rest

/-- `RegExp.prototype.test`: with a `^` anchor the match must start at
index 0, otherwise the engine scans every start position. -/
def JSRegExp.test (p : JSRegExp) (s : String) : Bool :=
  if p.anchoredStart then
    matchHere p.ignoreCase p.anchoredEnd p.body s.data
  else
    (tails s.data).any (matchHere p.ignoreCase p.anchoredEnd p.body)

/-- Translate one literal character of pattern source: `/` and `.` are
written escaped in every signature, all other characters bare. -/
def charRe (c : Char) : Re :=
  if c = '/' ∨ c = '.' then .esc c else .lit c

/-- Concatenation of literal characters, e.g. `strRe "/blog"` is the AST of
the source text `\/blog`. -/
def strRe (s : String) : Re :=
  s.data.foldr (fun c acc => Re.seq (charRe c) acc) .eps

/-- `/^r$/i` -/
def reExact (r : Re) : JSRegExp := ⟨true, r, true, true⟩

/-- `/^r/i` -/
def reStart (r : Re) : JSRegExp := ⟨true, r, false, true⟩

/-- `/r/i` -/
def reAny (r : Re) : JSRegExp := ⟨false, r, false, true⟩

/-- `/r$/i` -/
def reEnd (r : Re) : JSRegExp := ⟨false, r, true, true⟩

/-- Left-associated alternation `a|b|c|...` as parsed by the regex engine. -/
def altList : List Re → Re
  | [] => .eps
  | r :: rest => rest.foldl Re.alt r

/-- The built-in signature `/^\/blog$/i` (named because several theorems
single it out). -/
def blogPat : JSRegExp := reExact (strRe "/blog")

/-- The built-in attack signature list `ATTACK_PATTERNS` of `src/index.ts`,
in source order. -/
def ATTACK_PATTERNS : List JSRegExp := [
  -- PHP patterns
  reEnd (strRe ".php"),
  reAny (strRe "/config.php"),
  reAny (strRe "/phpinfo"),
  reAny (strRe "/eval-stdin.php"),
  reAny (strRe "/xmlrpc.php"),
  -- Shell/backdoor patterns (anywhere in path)
  reAny (strRe "/ALFA_DATA"),
  reAny (strRe "/c99.php"),
  reAny (strRe "/r57.php"),
  reAny (strRe "/shell.php"),
  reAny (strRe "/webshell"),
  -- WordPress (anchored to root level)
  reExact (strRe "/wp"),
  reStart (strRe "/wp-"),
  reStart (strRe "/wordpress"),
  -- WordPress internals (anywhere in path)
  reAny (strRe "/wp-includes/"),
  reAny (strRe "/wp-content/"),
  reAny (strRe "/wp-admin"),
  reEnd (strRe "wlwmanifest.xml"),
  -- Generic upload/file directories (root level)
  reExact (.seq (strRe "/upload") (.opt (.lit 's'))),
  reExact (strRe "/images"),
  reExact (strRe "/assets"),
  reExact (strRe "/files"),
  reExact (strRe "/media"),
  reExact (strRe "/public"),
  -- Admin subdirectories (common exploit paths)
  reAny (.seq (strRe "/admin/") (.group (altList
    [.seq (strRe "upload") (.opt (.lit 's')), strRe "images", strRe "editor",
     strRe "fckeditor", strRe "controller"]))),
  -- CMS/framework directories (root level)
  reExact (strRe "/modules"),
  reExact (strRe "/plugins"),
  reExact (strRe "/components"),
  reExact (strRe "/system"),
  reExact (strRe "/template"),
  reExact (.seq (strRe "/include") (.opt (.lit 's'))),
  reExact (strRe "/vendor"),
  reExact (strRe "/local"),
  reExact (strRe "/php"),
  -- CMS-specific exploit paths (anywhere in path)
  reAny (strRe "/fckeditor/editor/filemanager"),
  reAny (strRe "/sites/default/files"),
  reAny (strRe "/images/stories"),
  reAny (strRe "/modules/mod_simplefileupload"),
  reAny (strRe "/controller/extension"),
  -- Admin panels (exact matches)
  reExact (.seq (strRe "/admin") (.opt (.group (strRe ".php")))),
  reStart (strRe "/administrator"),
  reStart (strRe "/phpmyadmin"),
  reStart (strRe "/cpanel"),
  reStart (strRe "/whm"),
  reStart (strRe "/cgi-bin"),
  -- CMS frameworks (anchored to root)
  reStart (strRe "/typo3"),
  reStart (strRe "/joomla"),
  reStart (strRe "/drupal"),
  reStart (strRe "/magento"),
  -- Config/sensitive files (anywhere in path is suspicious)
  reAny (strRe "/.env"),
  reAny (strRe "/.git"),
  reEnd (strRe "/.sql"),
  reAny (strRe "/.well-known/security.txt"),
  reAny (.seq (charRe '/') (.seq (.group (altList
    [strRe "vendor", strRe "node_modules"])) (charRe '/'))),
  -- Backup files (.bak, .old, .backup, .orig)
  reEnd (.seq (charRe '.') (.group (altList
    [strRe "bak", strRe "old", strRe "backup", strRe "orig",
     strRe "save", strRe "swp"]))),
  -- Config files at root
  reExact (.seq (strRe "/config.") (.group (altList
    [strRe "js", strRe "json", strRe "yml", strRe "yaml", strRe "xml",
     strRe "ini", strRe "conf"]))),
  reExact (.seq (strRe "/settings.") (.group (altList
    [strRe "js", strRe "json", strRe "yml", strRe "yaml", strRe "xml"]))),
  reExact (.seq (strRe "/credentials.") (.group (altList
    [strRe "js", strRe "json", strRe "yml", strRe "yaml"]))),
  reExact (.seq (strRe "/secrets.") (.group (altList
    [strRe "js", strRe "json", strRe "yml", strRe "yaml", strRe "env"]))),
  reExact (.seq (strRe "/appsettings.") (.group (altList
    [strRe "json", strRe "yml", strRe "yaml"]))),
  reExact (.seq (strRe "/application.") (.group (altList
    [strRe "yml", strRe "yaml", strRe "xml", strRe "properties"]))),
  -- JS files at root that leak environment info
  reExact (strRe "/env.js"),
  -- Server info/status routes
  reExact (.seq (strRe "/server-") (.group (altList
    [strRe "status", strRe "info"]))),
  reExact (strRe "/info"),
  -- Swagger/OpenAPI at root
  reExact (.seq (strRe "/swagger.") (.group (altList
    [strRe "json", strRe "yml", strRe "yaml"]))),
  reExact (.seq (strRe "/api/swagger.") (.group (altList
    [strRe "json", strRe "yml", strRe "yaml"]))),
  -- Environment leak attempts
  reStart (strRe "/_env"),
  reStart (strRe "/config/"),
  -- Backup patterns (anchored to root)
  reStart (strRe "/backup"),
  reExact (strRe "/bk"),
  reExact (strRe "/bak"),
  reExact (strRe "/bac"),
  reStart (strRe "/dump"),
  -- Database patterns (anchored to root)
  reStart (strRe "/db_"),
  reStart (strRe "/sql"),
  -- Shell/exploit patterns (anchored to root)
  reStart (strRe "/shell"),
  -- Auth routes (exact matches only)
  reExact (strRe "/login"),
  reExact (strRe "/signin"),
  reExact (strRe "/register"),
  reExact (strRe "/signup"),
  reExact (strRe "/dashboard"),
  reStart (.seq (strRe "/user/") (.group (altList
    [strRe "login", strRe "signin", strRe "register", strRe "signup"]))),
  -- Brute force discovery patterns
  reExact (strRe "/old"),
  reExact (strRe "/new"),
  reExact (strRe "/test"),
  reExact (strRe "/demo"),
  reExact (strRe "/www"),
  reExact (strRe "/main"),
  reExact (strRe "/site"),
  reExact (strRe "/shop"),
  blogPat,
  reExact (strRe "/bc"),
  reExact (strRe "/sitio"),
  reExact (strRe "/sito"),
  reExact (strRe "/oldsite"),
  reExact (strRe "/old-site"),
  reExact (.seq (charRe '/') (.rep4 .digit))
]

/-- The TypeScript option type `status?: 410 | 404 | 403`. -/
inductive BlockStatus where
  | s410 : BlockStatus
  | s404 : BlockStatus
  | s403 : BlockStatus
deriving DecidableEq, Repr

/-- Numeric HTTP status code of a `BlockStatus`. -/
def BlockStatus.code : BlockStatus → Nat
  | .s410 => 410
  | .s404 => 404
  | .s403 => 403

/-- `HoneypotOptions` of `src/index.ts`; `none` models an omitted field. -/
structure HoneypotOptions where
  patterns : Option (List JSRegExp)
  exclude : Option (List JSRegExp)
  log : Option Bool
  status : Option BlockStatus
deriving DecidableEq, Repr

/-- `honeypot({})` — every option omitted. -/
def defaultOptions : HoneypotOptions := ⟨none, none, none, none⟩

/-- The effective rule list built by `honeypot` at configuration time:
`let patterns = [...ATTACK_PATTERNS, ...(options.patterns || [])]`, then,
when `options.exclude?.length` is truthy, the filter
`patterns.filter((p) => !options.exclude!.some((e) => p.source === e.source))`. -/
def compose (options : HoneypotOptions) : List JSRegExp :=
  let patterns := ATTACK_PATTERNS ++ options.patterns.getD []
  match options.exclude with
  | none => patterns
  | some excl =>
      if excl.length ≠ 0 then
        patterns.filter
          (fun pattern => ! excl.any (fun e => pattern.source == e.source))
      else patterns

/-- Collapse every run of consecutive `'/'` characters to a single `'/'`
(the JS statement `rawPath.replace(/\/+/g, '/')`). -/
def collapseSlashes : List Char → List Char
  | [] => []
  | [c] => [c]
  | a :: b :: rest =>
      if a = '/' ∧ b = '/' then collapseSlashes (b :: rest)
      else a :: collapseSlashes (b :: rest)

/-- Path normalization performed on every request before matching. -/
def normalize (s : String) : String := ⟨collapseSlashes s.data⟩

/-- Outcome of one request: `allow` (the middleware calls `next()` and
leaves the request untouched) or `block status body` (the middleware
returns `c.body(null, status)`, so the body is `none` = null/empty). -/
inductive Decision where
  | allow : Decision
  | block : Nat → Option String → Decision
deriving DecidableEq, Repr

/-- The log record written by `console.log` on a blocked request. -/
structure LogRecord where
  ip : String
  method : String
  path : String
deriving DecidableEq, Repr

/-- `split(',')[0]`: the text before the first comma (the whole string if
there is no comma). -/
def firstField (s : String) : String := ⟨s.data.takeWhile (fun c => c ≠ ',')⟩

/-- JavaScript `a || b` on an optional string: `undefined` and `""` are
falsy and fall through to `b`. -/
def jsOr (a : Option String) (b : String) : String :=
  match a with
  | none => b
  | some s => if s = "" then b else s

/-- Client-IP derivation on a blocked, logged request:
`c.req.header('cf-connecting-ip') ||
 c.req.header('x-forwarded-for')?.split(',')[0]?.trim() ||
 c.req.header('x-real-ip') || 'unknown'`. -/
def clientIp (header : String → Option String) : String :=
  jsOr (header "cf-connecting-ip")
    (jsOr ((header "x-forwarded-for").map (fun v => (firstField v).trim))
      (jsOr (header "x-real-ip") "unknown"))

/-- The per-request handler returned by `honeypot(options)`: the decision
(allow = `next()`; block = `c.body(null, status)`), paired with the log
record that `console.log` emits (or `none` when nothing is logged). -/
def honeypot (options : HoneypotOptions) (method rawPath : String)
    (header : String → Option String) : Decision × Option LogRecord :=
  let patterns := compose options
  let shouldLog := options.log.getD true
  let status := (options.status.getD .s410).code
  let path := normalize rawPath
  if patterns.any (fun pattern => pattern.test path) then
    (Decision.block status none,
     if shouldLog then some ⟨clientIp header, method, path⟩ else none)
  else
    (Decision.allow, none)

/-- First-match scan of the rule list: stops at the first signature that
matches, never looking at later rules (the short-circuit evaluation of
`patterns.some`). -/
def firstMatch (rules : List JSRegExp) (path : String) : Option JSRegExp :=
  match rules with
  | [] => none
  | r :: rest => if r.test path then some r else firstMatch rest path

/-- Decision taken for a path under the default configuration
(`honeypot()` with no headers present). -/
def defaultDecide (rawPath : String) : Decision :=
  (honeypot defaultOptions "GET" rawPath (fun _ => none)).fst

/-- The textually different but semantically equivalent variant
`/^(\/blog)$/i` of the built-in `/^\/blog$/i`. -/
def blogPatGrouped : JSRegExp := reExact (.group (strRe "/blog"))

/-- The built-in blog pattern written without the `i` flag: same `.source`,
different flags. -/
def blogPatNoFlag : JSRegExp := ⟨true, strRe "/blog", true, false⟩

/-- A caller-supplied addition `/^\/secret/i`. -/
def secretPat : JSRegExp := reStart (strRe "/secret")

/-- The composition algorithm exactly as the specification words it
(§4.2): built-ins with source-text-excluded elements removed, concatenated
with the additions — additions not subject to exclusion.  Stated only to
be compared against the implementation's `compose`. -/
def composeClaimed (options : HoneypotOptions) : List JSRegExp :=
  ATTACK_PATTERNS.filter
    (fun b => ! (options.exclude.getD []).any (fun e => b.source == e.source))
  ++ options.patterns.getD []

/-! ## Helper lemmas -/

theorem firstMatch_isSome (rules : List JSRegExp) (path : String) :
    (firstMatch rules path).isSome =
      rules.any (fun pattern => pattern.test path) := by
  induction rules with
  | nil => rfl
  | cons r rest ih =>
      by_cases h : r.test path = true <;>
        simp [firstMatch, h, ih]

theorem char_toNat_ofNat {n : Nat} (h : n < 55296) :
    (Char.ofNat n).toNat = n := by
  have hv : n.isValidChar := Or.inl h
  rw [Char.ofNat, dif_pos hv]
  rfl

theorem toLower_toUpper (c : Char) : (Char.toUpper c).toLower = c.toLower := by
  unfold Char.toUpper Char.toLower
  by_cases h : c.toNat ≥ 97 ∧ c.toNat ≤ 122
  · rw [if_pos h]
    have h1 : (Char.ofNat (c.toNat - 32)).toNat = c.toNat - 32 :=
      char_toNat_ofNat (by omega)
    rw [h1, if_pos (by omega), if_neg (by omega)]
    have h2 : c.toNat - 32 + 32 = c.toNat := by omega
    rw [h2, Char.ofNat_toNat]
  · rw [if_neg h]

theorem toLower_toLower (c : Char) : (Char.toLower c).toLower = c.toLower := by
  by_cases h : c.toNat ≥ 65 ∧ c.toNat ≤ 90
  · have hc : Char.toLower c = Char.ofNat (c.toNat + 32) := by
      unfold Char.toLower
      rw [if_pos h]
    have h1 : (Char.ofNat (c.toNat + 32)).toNat = c.toNat + 32 :=
      char_toNat_ofNat (by omega)
    rw [hc]
    unfold Char.toLower
    rw [h1, if_neg (by omega)]
  · have hc : Char.toLower c = c := by
      unfold Char.toLower
      rw [if_neg h]
    rw [hc]
    exact hc

theorem isDigit_eq (c : Char) :
    c.isDigit = (decide (48 ≤ c.toNat) && decide (c.toNat ≤ 57)) := by
  unfold Char.isDigit
  congr 1

theorem isDigit_toUpper (c : Char) : (Char.toUpper c).isDigit = c.isDigit := by
  unfold Char.toUpper
  by_cases h : c.toNat ≥ 97 ∧ c.toNat ≤ 122
  · rw [if_pos h]
    have h1 : (Char.ofNat (c.toNat - 32)).toNat = c.toNat - 32 :=
      char_toNat_ofNat (by omega)
    rw [isDigit_eq, isDigit_eq, h1]
    have h2 : (decide (48 ≤ c.toNat - 32) && decide (c.toNat - 32 ≤ 57))
        = false := by
      simp only [Bool.and_eq_false_iff, decide_eq_false_iff_not]
      omega
    have h3 : (decide (48 ≤ c.toNat) && decide (c.toNat ≤ 57)) = false := by
      simp only [Bool.and_eq_false_iff, decide_eq_false_iff_not]
      omega
    rw [h2, h3]
  · rw [if_neg h]

theorem isDigit_toLower (c : Char) : (Char.toLower c).isDigit = c.isDigit := by
  unfold Char.toLower
  by_cases h : c.toNat ≥ 65 ∧ c.toNat ≤ 90
  · rw [if_pos h]
    have h1 : (Char.ofNat (c.toNat + 32)).toNat = c.toNat + 32 :=
      char_toNat_ofNat (by omega)
    rw [isDigit_eq, isDigit_eq, h1]
    have h2 : (decide (48 ≤ c.toNat + 32) && decide (c.toNat + 32 ≤ 57))
        = false := by
      simp only [Bool.and_eq_false_iff, decide_eq_false_iff_not]
      omega
    have h3 : (decide (48 ≤ c.toNat) && decide (c.toNat ≤ 57)) = false := by
      simp only [Bool.and_eq_false_iff, decide_eq_false_iff_not]
      omega
    rw [h2, h3]
  · rw [if_neg h]

theorem toUpper_eq_slash (c : Char) : Char.toUpper c = '/' ↔ c = '/' := by
  unfold Char.toUpper
  have h47 : ('/' : Char).toNat = 47 := rfl
  by_cases h : c.toNat ≥ 97 ∧ c.toNat ≤ 122
  · rw [if_pos h]
    have h1 : (Char.ofNat (c.toNat - 32)).toNat = c.toNat - 32 :=
      char_toNat_ofNat (by omega)
    constructor
    · intro hc
      have h2 := congrArg Char.toNat hc
      rw [h1, h47] at h2
      omega
    · intro hc
      subst hc
      exfalso
      rw [h47] at h
      omega
  · rw [if_neg h]

theorem toLower_eq_slash (c : Char) : Char.toLower c = '/' ↔ c = '/' := by
  unfold Char.toLower
  have h47 : ('/' : Char).toNat = 47 := rfl
  by_cases h : c.toNat ≥ 65 ∧ c.toNat ≤ 90
  · rw [if_pos h]
    have h1 : (Char.ofNat (c.toNat + 32)).toNat = c.toNat + 32 :=
      char_toNat_ofNat (by omega)
    constructor
    · intro hc
      have h2 := congrArg Char.toNat hc
      rw [h1, h47] at h2
      omega
    · intro hc
      subst hc
      exfalso
      rw [h47] at h
      omega
  · rw [if_neg h]

theorem flatMap_map_lists (f : Char → Char)
    (g : List Char → List (List Char))
    (hg : ∀ t, g (t.map f) = (g t).map (List.map f))
    (L : List (List Char)) :
    (L.map (List.map f)).flatMap g = (L.flatMap g).map (List.map f) := by
  rw [List.flatMap_map, List.map_flatMap]
  congr 1
  funext t
  exact hg t

theorem residuals_map (f : Char → Char)
    (hfold : ∀ a, (f a).toLower = a.toLower)
    (hdig : ∀ a, (f a).isDigit = a.isDigit)
    (r : Re) : ∀ s : List Char,
    residuals true r (s.map f) = (residuals true r s).map (List.map f) := by
  induction r with
  | eps => intro s; rfl
  | lit c =>
      intro s
      cases s with
      | nil => rfl
      | cons a t =>
          simp only [List.map_cons, residuals, charMatch, if_true, hfold a]
          by_cases h : (c.toLower == a.toLower) = true <;> simp [h]
  | esc c =>
      intro s
      cases s with
      | nil => rfl
      | cons a t =>
          simp only [List.map_cons, residuals, charMatch, if_true, hfold a]
          by_cases h : (c.toLower == a.toLower) = true <;> simp [h]
  | digit =>
      intro s
      cases s with
      | nil => rfl
      | cons a t =>
          simp only [List.map_cons, residuals, hdig a]
          by_cases h : a.isDigit = true <;> simp [h]
  | seq r1 r2 ih1 ih2 =>
      intro s
      simp only [residuals]
      rw [ih1 s, flatMap_map_lists f _ ih2]
  | alt r1 r2 ih1 ih2 =>
      intro s
      simp only [residuals]
      rw [ih1 s, ih2 s, List.map_append]
  | group r ih =>
      intro s
      simp only [residuals]
      exact ih s
  | opt r ih =>
      intro s
      simp only [residuals, List.map_cons]
      rw [ih s]
  | rep4 r ih =>
      intro s
      simp only [residuals]
      rw [ih s, flatMap_map_lists f _ ih, flatMap_map_lists f _ ih,
        flatMap_map_lists f _ ih]

theorem tails_map (f : Char → Char) :
    ∀ s : List Char, tails (s.map f) = (tails s).map (List.map f) := by
  intro s
  induction s with
  | nil => rfl
  | cons a t ih => simp [tails, ih]

theorem matchHere_map (f : Char → Char)
    (hfold : ∀ a, (f a).toLower = a.toLower)
    (hdig : ∀ a, (f a).isDigit = a.isDigit)
    (ae : Bool) (r : Re) (s : List Char) :
    matchHere true ae r (s.map f) = matchHere true ae r s := by
  unfold matchHere
  rw [residuals_map f hfold hdig r s, List.any_map]
  congr 1
  funext rem
  cases ae <;> cases rem <;> rfl

theorem test_map (f : Char → Char)
    (hfold : ∀ a, (f a).toLower = a.toLower)
    (hdig : ∀ a, (f a).isDigit = a.isDigit)
    (p : JSRegExp) (hic : p.ignoreCase = true) (s : List Char) :
    p.test ⟨s.map f⟩ = p.test ⟨s⟩ := by
  obtain ⟨as, body, ae, ic⟩ := p
  simp only at hic
  subst hic
  unfold JSRegExp.test
  cases as with
  | true =>
      simp only [if_true]
      exact matchHere_map f hfold hdig ae body s
  | false =>
      simp only [Bool.false_eq_true, if_false]
      show (tails (s.map f)).any _ = _
      rw [tails_map f s, List.any_map]
      congr 1
      funext t
      exact matchHere_map f hfold hdig ae body t

theorem collapseSlashes_map (f : Char → Char)
    (hsl : ∀ a, f a = '/' ↔ a = '/') :
    ∀ l : List Char, collapseSlashes (l.map f) = (collapseSlashes l).map f := by
  intro l
  induction l using collapseSlashes.induct with
  | case1 => rfl
  | case2 c => rfl
  | case3 a b rest h ih =>
      have hf : f a = '/' ∧ f b = '/' := ⟨(hsl a).mpr h.1, (hsl b).mpr h.2⟩
      simp only [List.map_cons] at ih ⊢
      rw [collapseSlashes, if_pos hf, ih]
      rw [show collapseSlashes (a :: b :: rest) = collapseSlashes (b :: rest)
        from by rw [collapseSlashes, if_pos h]]
  | case4 a b rest h ih =>
      have hf : ¬ (f a = '/' ∧ f b = '/') := by
        intro ⟨ha, hb⟩
        exact h ⟨(hsl a).mp ha, (hsl b).mp hb⟩
      simp only [List.map_cons] at ih ⊢
      rw [collapseSlashes, if_neg hf, ih]
      rw [show collapseSlashes (a :: b :: rest) =
          a :: collapseSlashes (b :: rest)
        from by rw [collapseSlashes, if_neg h]]
      rw [List.map_cons]

theorem collapseSlashes_head (b : Char) (rest : List Char) :
    ∃ t, collapseSlashes (b :: rest) = b :: t := by
  induction rest generalizing b with
  | nil => exact ⟨[], rfl⟩
  | cons c rs ih =>
      by_cases h : b = '/' ∧ c = '/'
      · obtain ⟨t, ht⟩ := ih c
        exact ⟨t, by rw [collapseSlashes, if_pos h, ht, h.1, h.2]⟩
      · exact ⟨collapseSlashes (c :: rs), by rw [collapseSlashes, if_neg h]⟩

theorem collapseSlashes_idem (l : List Char) :
    collapseSlashes (collapseSlashes l) = collapseSlashes l := by
  induction l using collapseSlashes.induct with
  | case1 => rfl
  | case2 c => rfl
  | case3 a b rest h ih =>
      rw [collapseSlashes, if_pos h, ih]
  | case4 a b rest h ih =>
      obtain ⟨t, ht⟩ := collapseSlashes_head b rest
      rw [collapseSlashes, if_neg h, ht]
      rw [ht] at ih
      rw [collapseSlashes, if_neg h, ih]

theorem normalize_idem (s : String) : normalize (normalize s) = normalize s := by
  unfold normalize
  rw [collapseSlashes_idem]

theorem any_test_map (f : Char → Char)
    (hfold : ∀ a, (f a).toLower = a.toLower)
    (hdig : ∀ a, (f a).isDigit = a.isDigit)
    (rules : List JSRegExp) (hic : ∀ p ∈ rules, p.ignoreCase = true)
    (s : List Char) :
    rules.any (fun pattern => pattern.test ⟨s.map f⟩) =
      rules.any (fun pattern => pattern.test ⟨s⟩) := by
  induction rules with
  | nil => rfl
  | cons r rest ih =>
      rw [List.any_cons, List.any_cons,
        test_map f hfold hdig r (hic r (List.mem_cons_self r rest)) s,
        ih (fun p hp => hic p (List.mem_cons_of_mem r hp))]

theorem defaultDecide_map (f : Char → Char)
    (hfold : ∀ a, (f a).toLower = a.toLower)
    (hdig : ∀ a, (f a).isDigit = a.isDigit)
    (hsl : ∀ a, f a = '/' ↔ a = '/') (rawPath : String) :
    defaultDecide ⟨rawPath.data.map f⟩ = defaultDecide rawPath := by
  have hic : ∀ p ∈ compose defaultOptions, p.ignoreCase = true := by decide
  have hnorm : normalize ⟨rawPath.data.map f⟩ =
      ⟨(collapseSlashes rawPath.data).map f⟩ := by
    unfold normalize
    rw [show (String.mk (rawPath.data.map f)).data = rawPath.data.map f
      from rfl]
    rw [collapseSlashes_map f hsl]
  have hcond : (compose defaultOptions).any
        (fun pattern => pattern.test (normalize ⟨rawPath.data.map f⟩)) =
      (compose defaultOptions).any
        (fun pattern => pattern.test (normalize rawPath)) := by
    rw [hnorm]
    exact any_test_map f hfold hdig (compose defaultOptions) hic
      (collapseSlashes rawPath.data)
  simp only [defaultDecide, honeypot]
  rw [hcond]
  by_cases hm : (compose defaultOptions).any
      (fun pattern => pattern.test (normalize rawPath)) = true
  · rw [if_pos hm, if_pos hm]
  · rw [if_neg hm, if_neg hm]

/-! ## Claim theorems -/

/-- Claim C6: under the built-in signature set, `/admin` blocks while
`/api/admin` allows; `/blog` blocks while `/blogs` allows; `/wp-admin`
blocks and `/foo/wp-admin/index.php` also blocks; `/2017` and `/2024`
block while `/abcd` and `/12345` allow; and the year-folder signature
`/^\/\d{4}$/i` itself accepts `/2017` and `/2024` but neither `/abcd` nor
`/12345`,  matching exactly four digits and nothing else. -/
theorem claim_C6_builtin_regression_set :
    defaultDecide "/admin" = Decision.block 410 none ∧
    defaultDecide "/api/admin" = Decision.allow ∧
    defaultDecide "/blog" = Decision.block 410 none ∧
    defaultDecide "/blogs" = Decision.allow ∧
    defaultDecide "/wp-admin" = Decision.block 410 none ∧
    defaultDecide "/foo/wp-admin/index.php" = Decision.block 410 none ∧
    defaultDecide "/2017" = Decision.block 410 none ∧
    defaultDecide "/2024" = Decision.block 410 none ∧
    defaultDecide "/abcd" = Decision.allow ∧
    defaultDecide "/12345" = Decision.allow ∧
    (reExact (.seq (charRe '/') (.rep4 .digit))).test "/2017" = true ∧
    (reExact (.seq (charRe '/') (.rep4 .digit))).test "/2024" = true ∧
    (reExact (.seq (charRe '/') (.rep4 .digit))).test "/abcd" = false ∧
    (reExact (.seq (charRe '/') (.rep4 .digit))).test "/12345" = false ∧
    (reExact (.seq (charRe '/') (.rep4 .digit))).test "/123" = false := by
  decide

/-- Claim C1: for every effective rule list and every request path, the
middleware allows (calls `next()`, returning `(allow, none)` — request and
response untouched, nothing logged) iff no effective signature matches the
normalized path, blocks with the configured status and a null body iff
some effective signature matches, and the outcome coincides with the
first-match short-circuit scan `firstMatch`. -/
theorem claim_C1_decision_iff_match
    (options : HoneypotOptions) (method rawPath : String)
    (header : String → Option String) :
    ((honeypot options method rawPath header).fst = Decision.allow ↔
      ∀ r ∈ compose options, r.test (normalize rawPath) = false) ∧
    ((honeypot options method rawPath header).fst =
        Decision.block ((options.status.getD .s410).code) none ↔
      ∃ r ∈ compose options, r.test (normalize rawPath) = true) ∧
    ((honeypot options method rawPath header).fst = Decision.allow →
      honeypot options method rawPath header = (Decision.allow, none)) ∧
    ((honeypot options method rawPath header).fst =
      match firstMatch (compose options) (normalize rawPath) with
      | some _ => Decision.block ((options.status.getD .s410).code) none
      | none => Decision.allow) := by
  have hfm := firstMatch_isSome (compose options) (normalize rawPath)
  by_cases hm : (compose options).any
      (fun pattern => pattern.test (normalize rawPath)) = true
  · have hval : honeypot options method rawPath header =
        (Decision.block ((options.status.getD .s410).code) none,
         if options.log.getD true = true
         then some ⟨clientIp header, method, normalize rawPath⟩ else none) := by
      unfold honeypot
      rw [if_pos hm]
    rw [hm] at hfm
    obtain ⟨r, hr⟩ := Option.isSome_iff_exists.mp hfm
    rw [List.any_eq_true] at hm
    refine ⟨?_, ?_, ?_, ?_⟩
    · constructor
      · intro h
        rw [hval] at h
        exact absurd h (by simp)
      · intro hall
        obtain ⟨r', hr', ht⟩ := hm
        have hfalse := hall r' hr'
        rw [ht] at hfalse
        exact absurd hfalse (by simp)
    · exact ⟨fun _ => hm, fun _ => by rw [hval]⟩
    · intro h
      rw [hval] at h
      exact absurd h (by simp)
    · rw [hval, hr]
  · have hm' : (compose options).any
        (fun pattern => pattern.test (normalize rawPath)) = false :=
      Bool.eq_false_iff.mpr hm
    have hval : honeypot options method rawPath header =
        (Decision.allow, none) := by
      unfold honeypot
      rw [if_neg hm]
    rw [hm'] at hfm
    have hnone : firstMatch (compose options) (normalize rawPath) = none :=
      Option.not_isSome_iff_eq_none.mp (by rw [hfm]; simp)
    rw [List.any_eq_false] at hm'
    refine ⟨?_, ?_, ?_, ?_⟩
    · exact ⟨fun _ r hr => Bool.eq_false_iff.mpr (hm' r hr), fun _ => by rw [hval]⟩
    · constructor
      · intro h
        rw [hval] at h
        exact absurd h (by simp)
      · intro ⟨r', hr', ht⟩
        exact absurd ht (hm' r' hr')
    · intro _
      exact hval
    · rw [hval, hnone]

/-- Claim C2: the incoming path is normalized by collapsing every run of
consecutive `'/'` into a single `'/'` before any pattern is evaluated,
unconditionally — the whole middleware result on any raw path equals the
result on its normalized form, and in particular `//blog` and `///admin`
decide exactly as `/blog` and `/admin` (both block). -/
theorem claim_C2_normalization_before_matching
    (options : HoneypotOptions) (method rawPath : String)
    (header : String → Option String) :
    honeypot options method rawPath header =
      honeypot options method (normalize rawPath) header ∧
    defaultDecide "//blog" = defaultDecide "/blog" ∧
    defaultDecide "///admin" = defaultDecide "/admin" ∧
    defaultDecide "//blog" = Decision.block 410 none ∧
    defaultDecide "///admin" = Decision.block 410 none := by
  refine ⟨?_, by decide, by decide, by decide, by decide⟩
  unfold honeypot
  rw [normalize_idem]

/-- Claim C3: a built-in signature is removed from the effective rule list
iff some exclusion's pattern source text is exactly equal to that
built-in's source text; a semantically equivalent but textually different
exclusion (here `/^(\/blog)$/i` vs the built-in `/^\/blog$/i`) removes
nothing and the built-in still blocks; and an exclusion matching no rule's
source text is a silent no-op (composition is total — no error). -/
theorem claim_C3_exclusion_by_exact_source_text
    (adds excl : List JSRegExp) (lg : Option Bool) (st : Option BlockStatus)
    (b : JSRegExp) (hb : b ∈ ATTACK_PATTERNS) :
    (b ∈ compose ⟨some adds, some excl, lg, st⟩ ↔
      ¬ ∃ e ∈ excl, b.source = e.source) ∧
    (∀ s, blogPatGrouped.test s = blogPat.test s) ∧
    blogPatGrouped.source ≠ blogPat.source ∧
    blogPat ∈ compose ⟨none, some [blogPatGrouped], none, none⟩ ∧
    (honeypot ⟨none, some [blogPatGrouped], none, none⟩
        "GET" "/blog" (fun _ => none)).fst = Decision.block 410 none ∧
    (∀ excl', (∀ e ∈ excl', ∀ p ∈ ATTACK_PATTERNS ++ adds,
        e.source ≠ p.source) →
      compose ⟨some adds, some excl', lg, st⟩ = ATTACK_PATTERNS ++ adds) := by
  refine ⟨?_, ?_, by decide, by decide, by decide, ?_⟩
  · by_cases h0 : excl = []
    · subst h0
      simp [compose, List.mem_append, hb]
    · have hlen : excl.length ≠ 0 := by
        simpa [List.length_eq_zero] using h0
      have hc : compose ⟨some adds, some excl, lg, st⟩ =
          (ATTACK_PATTERNS ++ adds).filter
            (fun pattern =>
              ! excl.any (fun e => pattern.source == e.source)) := by
        simp [compose, hlen]
      rw [hc, List.mem_filter]
      constructor
      · intro ⟨_, hkeep⟩ ⟨e, he, hsrc⟩
        rw [Bool.not_eq_eq_eq_not, Bool.not_true, List.any_eq_false] at hkeep
        have := hkeep e he
        rw [hsrc] at this
        simp at this
      · intro hno
        refine ⟨List.mem_append_left _ hb, ?_⟩
        rw [Bool.not_eq_eq_eq_not, Bool.not_true, List.any_eq_false]
        intro e he
        by_cases hsrc : b.source = e.source
        · exact absurd ⟨e, he, hsrc⟩ hno
        · simpa using hsrc
  · intro s
    unfold blogPatGrouped blogPat JSRegExp.test reExact
    simp [matchHere, residuals]
  · intro excl' hno
    by_cases h0 : excl' = []
    · subst h0
      simp [compose]
    · have hlen : excl'.length ≠ 0 := by
        simpa [List.length_eq_zero] using h0
      have hc : compose ⟨some adds, some excl', lg, st⟩ =
          (ATTACK_PATTERNS ++ adds).filter
            (fun pattern =>
              ! excl'.any (fun e => pattern.source == e.source)) := by
        simp [compose, hlen]
      rw [hc]
      apply List.filter_eq_self.mpr
      intro p hp
      rw [Bool.not_eq_eq_eq_not, Bool.not_true, List.any_eq_false]
      intro e he
      have := hno e he p hp
      simpa using fun h => this (by simpa using h.symm)

/-- Witness for C3: excluding the built-in `/^\/blog$/i` by its exact
source text removes it from the effective rule list. -/
theorem claim_C3_witness :
    blogPat ∉ compose ⟨some [], some [blogPat], none, none⟩ :=
  fun hmem =>
    ((claim_C3_exclusion_by_exact_source_text [] [blogPat] none none blogPat
        (by decide)).1.mp hmem) ⟨blogPat, by decide, rfl⟩

/-- Claim C4 as stated is false: in the implementation the exclusion
filter runs over the whole concatenated list, so a caller-supplied
addition whose source text matches an exclusion is removed too.  With
`patterns: [/^\/secret/i]` and `exclude: [/^\/secret/i]` the composed list
differs from the spec's `(builtins minus excluded) ++ additions`: the
addition is gone and `/secret` is allowed rather than blocked. -/
theorem claim_C4_counterexample :
    compose ⟨some [secretPat], some [secretPat], some false, none⟩ ≠
      composeClaimed ⟨some [secretPat], some [secretPat], some false, none⟩ ∧
    secretPat ∉
      compose ⟨some [secretPat], some [secretPat], some false, none⟩ ∧
    secretPat ∈
      composeClaimed ⟨some [secretPat], some [secretPat], some false, none⟩ ∧
    (honeypot ⟨some [secretPat], some [secretPat], some false, none⟩
        "GET" "/secret" (fun _ => none)).fst = Decision.allow := by
  decide

/-- Claim C4 (amended): the composed effective rule list equals the
built-ins with source-text-excluded elements removed, concatenated with
the additions with source-text-excluded elements removed — exclusion
applies to additions as well; the relative order of survivors is
preserved and additions come after all built-ins.  With no exclusions the
list is exactly built-ins ++ additions. -/
theorem claim_C4_amended_composition (options : HoneypotOptions) :
    compose options =
      ATTACK_PATTERNS.filter (fun pattern =>
        ! (options.exclude.getD []).any
          (fun e => pattern.source == e.source)) ++
      (options.patterns.getD []).filter (fun pattern =>
        ! (options.exclude.getD []).any
          (fun e => pattern.source == e.source)) ∧
    (options.exclude = none →
      compose options = ATTACK_PATTERNS ++ options.patterns.getD []) := by
  constructor
  · rcases he : options.exclude with _ | excl
    · simp [compose, he]
    · by_cases h0 : excl = []
      · subst h0
        simp [compose, he]
      · have hlen : excl.length ≠ 0 := by
          simpa [List.length_eq_zero] using h0
        simp [compose, he, hlen, List.filter_append]
  · intro he
    simp [compose, he]

/-- Claim C10: the exclusion comparison reads only `.source` and ignores
the regex flags — any exclusion whose source text equals a built-in's
source text removes that built-in even if the flags differ; concretely,
excluding `/^\/blog$/` (no `i`) removes the built-in `/^\/blog$/i` and
`/blog` is then allowed. -/
theorem claim_C10_exclusion_ignores_flags
    (adds : Option (List JSRegExp)) (excl : List JSRegExp)
    (lg : Option Bool) (st : Option BlockStatus) (e b : JSRegExp)
    (_hb : b ∈ ATTACK_PATTERNS) (he : e ∈ excl) (hs : e.source = b.source) :
    b ∉ compose ⟨adds, some excl, lg, st⟩ ∧
    blogPatNoFlag.source = blogPat.source ∧
    blogPatNoFlag.ignoreCase ≠ blogPat.ignoreCase ∧
    blogPat ∉ compose ⟨none, some [blogPatNoFlag], none, none⟩ ∧
    (honeypot ⟨none, some [blogPatNoFlag], none, none⟩
        "GET" "/blog" (fun _ => none)).fst = Decision.allow := by
  refine ⟨?_, by decide, by decide, by decide, by decide⟩
  have hlen : excl.length ≠ 0 := by
    simpa [List.length_eq_zero] using List.ne_nil_of_mem he
  intro hmem
  have hc : compose ⟨adds, some excl, lg, st⟩ =
      (ATTACK_PATTERNS ++ adds.getD []).filter
        (fun pattern =>
          ! excl.any (fun e' => pattern.source == e'.source)) := by
    simp [compose, hlen]
  rw [hc, List.mem_filter] at hmem
  obtain ⟨_, hkeep⟩ := hmem
  rw [Bool.not_eq_eq_eq_not, Bool.not_true, List.any_eq_false] at hkeep
  have := hkeep e he
  rw [hs] at this
  simp at this

/-- Witness for C10: the flagless `/^\/blog$/` exclusion removes the
built-in `/^\/blog$/i`. -/
theorem claim_C10_witness :
    blogPat ∉ compose ⟨none, some [blogPatNoFlag], none, none⟩ :=
  (claim_C10_exclusion_ignores_flags none [blogPatNoFlag] none none
      blogPatNoFlag blogPat (by decide) (by decide) (by decide)).1

/-- Claim C5: a blocked request always carries exactly the configured
status code, which lies in `{410, 404, 403}` and defaults to `410` when
unconfigured, together with an empty (null) body; configuring `403` makes
every blocked request return `403`. -/
theorem claim_C5_block_status_and_empty_body
    (options : HoneypotOptions) (method rawPath : String)
    (header : String → Option String) (s : Nat) (b : Option String)
    (h : (honeypot options method rawPath header).fst = Decision.block s b) :
    s = (options.status.getD .s410).code ∧
    b = none ∧
    (s = 410 ∨ s = 404 ∨ s = 403) ∧
    (options.status = none → s = 410) ∧
    (options.status = some .s403 → s = 403) := by
  unfold honeypot at h
  by_cases hm :
      (compose options).any
        (fun pattern => pattern.test (normalize rawPath)) = true
  · simp only [hm, if_true] at h
    obtain ⟨hs, hb⟩ := Decision.block.inj h.symm
    refine ⟨hs, hb, ?_, ?_, ?_⟩
    · rcases ho : options.status with _ | st
      · subst hs; simp [ho, BlockStatus.code]
      · subst hs; cases st <;> simp [ho, BlockStatus.code]
    · intro ho; subst hs; simp [ho, BlockStatus.code]
    · intro ho; subst hs; simp [ho, BlockStatus.code]
  · rw [Bool.not_eq_true] at hm
    simp [hm] at h

/-- Witness for C5: with `status: 403` configured, the probe `/wp-admin`
is blocked with status exactly 403 and a null body. -/
theorem claim_C5_witness :
    403 = ((HoneypotOptions.mk none none none (some .s403)).status.getD
      .s410).code ∧
    (403 = 410 ∨ 403 = 404 ∨ (403 : Nat) = 403) :=
  ⟨(claim_C5_block_status_and_empty_body
      ⟨none, none, none, some .s403⟩ "GET" "/wp-admin" (fun _ => none)
      403 none (by decide)).1,
   (claim_C5_block_status_and_empty_body
      ⟨none, none, none, some .s403⟩ "GET" "/wp-admin" (fun _ => none)
      403 none (by decide)).2.2.1⟩

/-- Claim C7: a log record is emitted exactly when the decision is block
and logging is enabled (enabled by default: `options.log.getD true`); its
client identifier comes from `cf-connecting-ip`, then the first
comma-separated value of `x-forwarded-for`, then `x-real-ip`, falling back
to `"unknown"` (a present-but-empty header falls through, as with the JS
`||` operator); and the headers never influence the allow/block decision
or the returned status. -/
theorem claim_C7_log_record_and_ip_derivation
    (options : HoneypotOptions) (method rawPath : String)
    (h h' : String → Option String) :
    ((honeypot options method rawPath h).snd ≠ none ↔
      ((∃ s b, (honeypot options method rawPath h).fst = Decision.block s b) ∧
        options.log.getD true = true)) ∧
    (honeypot options method rawPath h).fst =
      (honeypot options method rawPath h').fst ∧
    (∀ rec, (honeypot options method rawPath h).snd = some rec →
      rec.ip = clientIp h ∧ rec.method = method ∧
        rec.path = normalize rawPath) ∧
    (∀ s, h "cf-connecting-ip" = some s → s ≠ "" → clientIp h = s) ∧
    (∀ v, (h "cf-connecting-ip" = none ∨ h "cf-connecting-ip" = some "") →
      h "x-forwarded-for" = some v → (firstField v).trim ≠ "" →
      clientIp h = (firstField v).trim) ∧
    (∀ u, (h "cf-connecting-ip" = none ∨ h "cf-connecting-ip" = some "") →
      (h "x-forwarded-for" = none ∨
        ∃ v, h "x-forwarded-for" = some v ∧ (firstField v).trim = "") →
      h "x-real-ip" = some u → u ≠ "" → clientIp h = u) ∧
    ((h "cf-connecting-ip" = none ∨ h "cf-connecting-ip" = some "") →
      (h "x-forwarded-for" = none ∨
        ∃ v, h "x-forwarded-for" = some v ∧ (firstField v).trim = "") →
      (h "x-real-ip" = none ∨ h "x-real-ip" = some "") →
      clientIp h = "unknown") := by
  refine ⟨?_, ?_, ?_, ?_, ?_, ?_, ?_⟩
  · by_cases hm : (compose options).any
        (fun pattern => pattern.test (normalize rawPath)) = true
    · have hval : honeypot options method rawPath h =
          (Decision.block ((options.status.getD .s410).code) none,
           if options.log.getD true = true
           then some ⟨clientIp h, method, normalize rawPath⟩ else none) := by
        unfold honeypot
        rw [if_pos hm]
      rw [hval]
      by_cases hl : options.log.getD true = true
      · simp [hl]
      · simp [hl]
    · have hval : honeypot options method rawPath h =
          (Decision.allow, none) := by
        unfold honeypot
        rw [if_neg hm]
      rw [hval]
      simp
  · unfold honeypot
    by_cases hm : (compose options).any
        (fun pattern => pattern.test (normalize rawPath)) = true
    · rw [if_pos hm, if_pos hm]
    · rw [if_neg hm, if_neg hm]
  · intro rec hrec
    unfold honeypot at hrec
    by_cases hm : (compose options).any
        (fun pattern => pattern.test (normalize rawPath)) = true
    · rw [if_pos hm] at hrec
      by_cases hl : options.log.getD true = true
      · simp only [hl, if_true] at hrec
        obtain rfl := Option.some.inj hrec
        exact ⟨rfl, rfl, rfl⟩
      · simp [hl] at hrec
    · rw [if_neg hm] at hrec
      simp at hrec
  · intro s hcf hs
    unfold clientIp jsOr
    rw [hcf]
    simp [hs]
  · intro v hcf hxf ht
    unfold clientIp jsOr
    rcases hcf with h0 | h0 <;> rw [h0, hxf] <;> simp [ht]
  · intro u hcf hxf hri hu
    unfold clientIp jsOr
    rcases hcf with h0 | h0 <;>
      rcases hxf with h1 | ⟨v, h1, hv1⟩ <;> rw [h0, h1, hri] <;> simp [*]
  · intro hcf hxf hri
    unfold clientIp jsOr
    rcases hcf with h0 | h0 <;>
      rcases hxf with h1 | ⟨v, h1, hv1⟩ <;>
      rcases hri with h2 | h2 <;> rw [h0, h1, h2] <;> simp [*]

/-- Claim C8: the decision procedure is deterministic — two invocations
configured with identical options, identical request method and path, and
headers agreeing pointwise produce identical results (same allow/block
outcome, same status, same log record). -/
theorem claim_C8_deterministic
    (o₁ o₂ : HoneypotOptions) (m₁ m₂ p₁ p₂ : String)
    (h₁ h₂ : String → Option String)
    (ho : o₁ = o₂) (hm : m₁ = m₂) (hp : p₁ = p₂) (hh : ∀ k, h₁ k = h₂ k) :
    honeypot o₁ m₁ p₁ h₁ = honeypot o₂ m₂ p₂ h₂ := by
  subst ho; subst hm; subst hp
  have : h₁ = h₂ := funext hh
  rw [this]

/-- Claim C9: every built-in signature carries the `i` (case-insensitive)
flag, and under the default configuration the decision is invariant under
changing the letter case of the path: for every path, the uppercased and
the lowercased variant receive the same allow/block decision — in
particular `/ADMIN` decides as `/admin` and `/WP-LOGIN.PHP` as
`/wp-login.php`. -/
theorem claim_C9_case_insensitive (rawPath : String) :
    ATTACK_PATTERNS.all (fun pattern => pattern.ignoreCase) = true ∧
    defaultDecide ⟨rawPath.data.map Char.toUpper⟩ = defaultDecide rawPath ∧
    defaultDecide ⟨rawPath.data.map Char.toLower⟩ = defaultDecide rawPath ∧
    defaultDecide "/ADMIN" = defaultDecide "/admin" ∧
    defaultDecide "/WP-LOGIN.PHP" = defaultDecide "/wp-login.php" ∧
    defaultDecide "/ADMIN" = Decision.block 410 none ∧
    defaultDecide "/WP-LOGIN.PHP" = Decision.block 410 none := by
  refine ⟨by decide, ?_, ?_, by decide, by decide, by decide, by decide⟩
  · exact defaultDecide_map Char.toUpper toLower_toUpper isDigit_toUpper
      toUpper_eq_slash rawPath
  · exact defaultDecide_map Char.toLower toLower_toLower isDigit_toLower
      toLower_eq_slash rawPath

/-- Witness for C8: two identically-configured invocations on `/blog`
agree. -/
theorem claim_C8_witness :
    honeypot defaultOptions "GET" "/blog" (fun _ => none) =
      honeypot defaultOptions "GET" "/blog" (fun _ => none) :=
  claim_C8_deterministic defaultOptions defaultOptions "GET" "GET"
    "/blog" "/blog" (fun _ => none) (fun _ => none) rfl rfl rfl
    (fun _ => rfl)

end Honeypot
